import Mathlib

/-!
Shallow embedding of the CssDeadwood dead-selector elimination pipeline
(src/cssdeadwood.py).

Modelling choices:
- A CSS selector is an opaque string; selector sets are Finset String,
  mirroring Python set values.
- An HTML document is abstracted by its external DOM selector evaluator
  (an out-of-scope collaborator): a function String → Option Nat giving
  the number of nodes soup.select returns, or none when the evaluator
  raises an exception for that selector.
- Source files scanned by the grep stage are represented by their text
  contents (String).
- The word-boundary search re.search of a pattern built from a word with
  boundary anchors on both sides is modelled literally: the words fed to it
  are the alphanumeric tokens of REGEX_ID and REGEX_CLASS, which contain no
  regex metacharacters, so the search is a literal whole-word search.
- Python set iteration order is arbitrary; where the code iterates a set
  (extract_ids_and_classes_from_selectors over the selector set) the
  embedding iterates the canonically sorted element list.  All set-valued
  outcomes are independent of that order.
-/

/-- ASCII word character class of the regex word boundary used by
get_occuring_words: letters, digits and underscore. -/
def isWordChar (c : Char) : Bool := c.isAlphanum || c == '_'

/-- Whether index i of the character list holds a word character
(out of range counts as no word character). -/
def wordCharAt (cs : List Char) (i : Nat) : Bool :=
  match cs[i]? with
  | some c => isWordChar c
  | none => false

/-- Word boundary of the regex engine at position i: word-character-ness
changes between position i - 1 (start of string counts as non-word) and
position i. -/
def hasBoundaryAt (cs : List Char) (i : Nat) : Bool :=
  (if i = 0 then false else wordCharAt cs (i - 1)) != wordCharAt cs i

/-- The word-boundary regex search performed by get_occuring_words for one
word: some position of the content where the word occurs literally with a
word boundary on each side. -/
def occursAsWord (w content : String) : Bool :=
  (List.range (content.data.length + 1)).any fun i =>
    hasBoundaryAt content.data i
      && w.data.isPrefixOf (content.data.drop i)
      && hasBoundaryAt content.data (i + w.data.length)

/-- get_occuring_words: the subset of the given words that occur
(whole-word) in the content. -/
def get_occuring_words (words : Finset String) (content : String) : Finset String :=
  words.filter fun w => occursAsWord w content = true

/-- findall of the precompiled regexes REGEX_ID / REGEX_CLASS: all
non-overlapping occurrences of the marker character followed by a non-empty
maximal alphanumeric run, scanning left to right, returning the runs. -/
def findTokens (marker : Char) : List Char → List String
  | [] => []
  | c :: rest =>
    if c = marker ∧ rest.takeWhile Char.isAlphanum ≠ [] then
      String.mk (rest.takeWhile Char.isAlphanum)
        :: findTokens marker (rest.drop (rest.takeWhile Char.isAlphanum).length)
    else
      findTokens marker rest
termination_by cs => cs.length
decreasing_by
  all_goals (simp [List.length_drop] <;> omega)

/-- Result triple of extract_ids_and_classes_from_selectors: the id set,
the class set, and the origins mapping from prefixed identifier to the list
of selectors it was found in (defaultdict with default empty list). -/
structure ExtractResult where
  ids : Finset String
  classes : Finset String
  origins : String → List String

/-- Body of the per-selector loop of extract_ids_and_classes_from_selectors:
add every id token and class token of the selector, and append the selector
to the origins entry of each prefixed identifier, once per occurrence. -/
def extractStep (acc : ExtractResult) (selector : String) : ExtractResult :=
  let idTokens := findTokens '#' selector.data
  let classTokens := findTokens '.' selector.data
  { ids := acc.ids ∪ idTokens.toFinset
    classes := acc.classes ∪ classTokens.toFinset
    origins := fun key =>
      acc.origins key
        ++ (idTokens.filter (fun t => "#" ++ t == key)).map (fun _ => selector)
        ++ (classTokens.filter (fun t => "." ++ t == key)).map (fun _ => selector) }

/-- extract_ids_and_classes_from_selectors, iterating the given selector
list (the iteration order of the Python set). -/
def extract_ids_and_classes_from_selectors (selectors : List String) : ExtractResult :=
  selectors.foldl extractStep { ids := ∅, classes := ∅, origins := fun _ => [] }

/-- An HTML document, abstracted by its external DOM selector evaluator:
for a selector string, some n when soup.select succeeds and returns n
nodes, none when the evaluator raises an exception. -/
def Doc : Type := String → Option Nat

/-- One soup.select call of get_matching_selectors_in_dom: the selector is
added to the found set exactly when the evaluator succeeds with a
non-empty node list; an exception is caught and the selector is skipped. -/
def selectorMatches (doc : Doc) (s : String) : Bool :=
  match doc s with
  | some n => decide (0 < n)
  | none => false

/-- get_matching_selectors_in_dom: the subset of the given selectors that
match at least one node of the document (evaluator errors caught per
selector, such a selector is not added). -/
def get_matching_selectors_in_dom (selectors : Finset String) (doc : Doc) : Finset String :=
  selectors.filter fun s => selectorMatches doc s = true

/-- Intermediate-data record of the DOM stage (the results dict). -/
structure DomResults where
  unused_selectors : List String

/-- CssDeadwoodApp.eliminate_selectors_from_dom_matching: start from a copy
of the candidate set, and for each HTML document remove the selectors that
matched it; the results dict records the sorted remaining list. -/
def eliminate_selectors_from_dom_matching (selectors : Finset String) (docs : List Doc) :
    Finset String × DomResults :=
  let unused := docs.foldl (fun u d => u \ get_matching_selectors_in_dom u d) selectors
  (unused, { unused_selectors := unused.sort (fun a b => a ≤ b) })

/-- One source file step of the grep scan for one (findable, unfindable)
pair: grow findable by the unfindable words occurring in the content, then
shrink unfindable by the findable set. -/
def scanStep (acc : Finset String × Finset String) (content : String) :
    Finset String × Finset String :=
  let findable := acc.1 ∪ get_occuring_words acc.2 content
  (findable, acc.2 \ findable)

/-- The source-file loop of the grep stage: one pass over the contents,
updating the id pair and the class pair from each file in turn. -/
def grepScan (idState classState : Finset String × Finset String) (contents : List String) :
    (Finset String × Finset String) × (Finset String × Finset String) :=
  contents.foldl (fun acc content => (scanStep acc.1 content, scanStep acc.2 content))
    (idState, classState)

/-- Intermediate-data record of the grep stage (the results dict). -/
structure GrepResults where
  ids : Finset String
  classes : Finset String
  unfindable_ids : Finset String
  unfindable_classes : Finset String
  unused_selectors : List String

/-- CssDeadwoodApp.eliminate_selectors_from_idclass_grepping: extract ids
and classes from the candidate selectors, scan the source files for them,
union the origins of every findable identifier into the used set, and
return the set difference. -/
def eliminate_selectors_from_idclass_grepping (selectors : Finset String)
    (srcs : List String) : Finset String × GrepResults :=
  let E := extract_ids_and_classes_from_selectors (selectors.sort (fun a b => a ≤ b))
  let scan := grepScan (∅, E.ids) (∅, E.classes) srcs
  let used := (scan.1.1.biUnion fun i => (E.origins ("#" ++ i)).toFinset) ∪
      (scan.2.1.biUnion fun c => (E.origins ("." ++ c)).toFinset)
  let unused := selectors \ used
  (unused,
    { ids := E.ids
      classes := E.classes
      unfindable_ids := scan.1.2
      unfindable_classes := scan.2.2
      unused_selectors := unused.sort (fun a b => a ≤ b) })

/-- The per-CSS-file result record assembled by CssDeadwoodApp.main:
extracted selectors, the optional stage records (present exactly when the
stage ran), and the sorted final unused list. -/
structure FileResult where
  selectors : Finset String
  dom_matching : Option DomResults
  idclass_elimination : Option GrepResults
  unused_selectors : List String

/-- The running unused set of the per-CSS-file loop of main: a copy of the
selectors, narrowed by the DOM stage when HTML files are present, then by
the grep stage when other source files are present. -/
def pipelineUnused (selectors : Finset String) (docs : List Doc) (srcs : List String) :
    Finset String :=
  let unused0 := selectors
  let unused1 := if docs.isEmpty then unused0
    else (eliminate_selectors_from_dom_matching unused0 docs).1
  if srcs.isEmpty then unused1
  else (eliminate_selectors_from_idclass_grepping unused1 srcs).1

/-- The per-CSS-file body of CssDeadwoodApp.main: run the optional stages
and assemble the result record; a skipped stage contributes no record. -/
def analyzeFile (selectors : Finset String) (docs : List Doc) (srcs : List String) :
    FileResult :=
  { selectors := selectors
    dom_matching := if docs.isEmpty then none
      else some (eliminate_selectors_from_dom_matching selectors docs).2
    idclass_elimination := if srcs.isEmpty then none
      else some (eliminate_selectors_from_idclass_grepping
        (if docs.isEmpty then selectors
          else (eliminate_selectors_from_dom_matching selectors docs).1) srcs).2
    unused_selectors := (pipelineUnused selectors docs srcs).sort (fun a b => a ≤ b) }

/-- The CSS-file loop of CssDeadwoodApp.main.  The selector extraction of
each CSS file is the external CSS parser (extract_css_selectors), passed in
as a fallible function; the loop body has no exception handler, so an
extraction error propagates and aborts the whole loop. -/
def mainLoop (extractFn : String → Except String (Finset String))
    (css_files : List String) (docs : List Doc) (srcs : List String) :
    Except String (List (String × FileResult)) :=
  match css_files with
  | [] => Except.ok []
  | f :: rest =>
    match extractFn f with
    | Except.error e => Except.error e
    | Except.ok sels =>
      match mainLoop extractFn rest docs srcs with
      | Except.error e => Except.error e
      | Except.ok tail => Except.ok ((f, analyzeFile sels docs srcs) :: tail)

/-- A heap of Python set objects, for stating which objects a stage
mutates: a cell per object, addressed by index. -/
structure PyHeap where
  cells : List (Finset String)

/-- Read a heap cell (out of range reads the empty set). -/
def PyHeap.read (h : PyHeap) (r : Nat) : Finset String := h.cells.getD r ∅

/-- Overwrite a heap cell in place (a Python set mutation). -/
def PyHeap.write (h : PyHeap) (r : Nat) (v : Finset String) : PyHeap :=
  { cells := h.cells.set r v }

/-- Allocate a fresh cell holding the given value, returning its address. -/
def PyHeap.alloc (h : PyHeap) (v : Finset String) : PyHeap × Nat :=
  ({ cells := h.cells ++ [v] }, h.cells.length)

/-- Stateful rendering of eliminate_selectors_from_dom_matching on the
object heap: unused = selectors.copy() allocates a fresh cell, and each
difference_update of the document loop writes that cell only; the address
of the fresh result cell is returned. -/
def dom_matching_stateful (h : PyHeap) (selRef : Nat) (docs : List Doc) : PyHeap × Nat :=
  let alloc := h.alloc (h.read selRef)
  let h2 := docs.foldl
    (fun hh d =>
      hh.write alloc.2 (hh.read alloc.2 \ get_matching_selectors_in_dom (hh.read alloc.2) d))
    alloc.1
  (h2, alloc.2)

/-- Stateful rendering of eliminate_selectors_from_idclass_grepping on the
object heap: the candidate set is only read; selectors.difference(...)
builds the result as a fresh object. -/
def idclass_grepping_stateful (h : PyHeap) (selRef : Nat) (srcs : List String) :
    PyHeap × Nat :=
  let v := (eliminate_selectors_from_idclass_grepping (h.read selRef) srcs).1
  let alloc := h.alloc v
  (alloc.1, alloc.2)

/-- An identifier of a selector, for stating the grep characterization: an
id token or a class token the extraction regexes find in it. -/
def selectorTokens (sel : String) : List String :=
  findTokens '#' sel.data ++ findTokens '.' sel.data

/-- The specification's notion of an identifier occurrence inside a selector
string: the token directly follows the marker character and is a non-empty
maximal alphanumeric run (nothing alphanumeric straight after it).  Written
from the specification's wording, to be compared with findTokens. -/
def specTokenIn (m : Char) (cs : List Char) (t : String) : Prop :=
  ∃ pre post, cs = pre ++ m :: (t.data ++ post) ∧ t.data ≠ [] ∧
    (∀ c ∈ t.data, c.isAlphanum = true) ∧
    ∀ c, post.head? = some c → c.isAlphanum = false

theorem mem_dom_fold (docs : List Doc) (S : Finset String) (x : String) :
    x ∈ docs.foldl (fun u d => u \ get_matching_selectors_in_dom u d) S ↔
      x ∈ S ∧ ∀ d ∈ docs, selectorMatches d x = false := by
  induction docs generalizing S with
  | nil => simp
  | cons d ds ih =>
    rw [List.foldl_cons, ih]
    simp only [get_matching_selectors_in_dom, Finset.mem_sdiff, Finset.mem_filter,
      List.mem_cons]
    constructor
    · rintro ⟨⟨hx, hnd⟩, hds⟩
      refine ⟨hx, ?_⟩
      rintro d' (rfl | hd')
      · cases hb : selectorMatches d' x
        · rfl
        · exact absurd ⟨hx, hb⟩ hnd
      · exact hds d' hd'
    · rintro ⟨hx, hall⟩
      refine ⟨⟨hx, ?_⟩, fun d' hd' => hall d' (Or.inr hd')⟩
      rintro ⟨-, hb⟩
      exact absurd hb (by simp [hall d (Or.inl rfl)])

theorem mem_scan_fold (contents : List String) (p : Finset String × Finset String)
    (x : String) :
    x ∈ (contents.foldl scanStep p).1 ↔
      x ∈ p.1 ∨ (x ∈ p.2 ∧ ∃ c ∈ contents, occursAsWord x c = true) := by
  induction contents generalizing p with
  | nil => simp
  | cons c cs ih =>
    rw [List.foldl_cons, ih]
    simp only [scanStep, get_occuring_words, Finset.mem_union, Finset.mem_sdiff,
      Finset.mem_filter, List.mem_cons]
    constructor
    · rintro ((hf | ⟨hu, hc⟩) | ⟨⟨hu, -⟩, c', hc', hocc⟩)
      · exact Or.inl hf
      · exact Or.inr ⟨hu, c, Or.inl rfl, hc⟩
      · exact Or.inr ⟨hu, c', Or.inr hc', hocc⟩
    · rintro (hf | ⟨hu, c', (rfl | hc'), hocc⟩)
      · exact Or.inl (Or.inl hf)
      · exact Or.inl (Or.inr ⟨hu, hocc⟩)
      · by_cases hfirst : x ∈ p.1 ∨ (x ∈ p.2 ∧ occursAsWord x c = true)
        · exact Or.inl hfirst
        · exact Or.inr ⟨⟨hu, hfirst⟩, c', hc', hocc⟩

theorem grepScan_eq (contents : List String) (p q : Finset String × Finset String) :
    grepScan p q contents = (contents.foldl scanStep p, contents.foldl scanStep q) := by
  unfold grepScan
  induction contents generalizing p q with
  | nil => rfl
  | cons c cs ih => simpa using ih (scanStep p c) (scanStep q c)

theorem mem_extract_ids (l : List String) (acc : ExtractResult) (x : String) :
    x ∈ (l.foldl extractStep acc).ids ↔
      x ∈ acc.ids ∨ ∃ s ∈ l, x ∈ findTokens '#' s.data := by
  induction l generalizing acc with
  | nil => simp
  | cons s ss ih =>
    rw [List.foldl_cons, ih]
    simp only [extractStep, Finset.mem_union, List.mem_toFinset, List.mem_cons]
    constructor
    · rintro ((h | h) | ⟨s', hs', h⟩)
      · exact Or.inl h
      · exact Or.inr ⟨s, Or.inl rfl, h⟩
      · exact Or.inr ⟨s', Or.inr hs', h⟩
    · rintro (h | ⟨s', (rfl | hs'), h⟩)
      · exact Or.inl (Or.inl h)
      · exact Or.inl (Or.inr h)
      · exact Or.inr ⟨s', hs', h⟩

theorem mem_extract_classes (l : List String) (acc : ExtractResult) (x : String) :
    x ∈ (l.foldl extractStep acc).classes ↔
      x ∈ acc.classes ∨ ∃ s ∈ l, x ∈ findTokens '.' s.data := by
  induction l generalizing acc with
  | nil => simp
  | cons s ss ih =>
    rw [List.foldl_cons, ih]
    simp only [extractStep, Finset.mem_union, List.mem_toFinset, List.mem_cons]
    constructor
    · rintro ((h | h) | ⟨s', hs', h⟩)
      · exact Or.inl h
      · exact Or.inr ⟨s, Or.inl rfl, h⟩
      · exact Or.inr ⟨s', Or.inr hs', h⟩
    · rintro (h | ⟨s', (rfl | hs'), h⟩)
      · exact Or.inl (Or.inl h)
      · exact Or.inl (Or.inr h)
      · exact Or.inr ⟨s', hs', h⟩

theorem mem_extract_origins (l : List String) (acc : ExtractResult) (key y : String) :
    y ∈ (l.foldl extractStep acc).origins key ↔
      y ∈ acc.origins key ∨ ∃ s ∈ l, y = s ∧
        ((∃ t ∈ findTokens '#' s.data, "#" ++ t = key) ∨
         (∃ t ∈ findTokens '.' s.data, "." ++ t = key)) := by
  induction l generalizing acc with
  | nil => simp
  | cons s ss ih =>
    rw [List.foldl_cons, ih]
    simp only [extractStep, List.mem_append, List.mem_map, List.mem_filter, beq_iff_eq,
      List.mem_cons]
    constructor
    · rintro (((h | ⟨t, ⟨ht, hk⟩, rfl⟩) | ⟨t, ⟨ht, hk⟩, rfl⟩) | ⟨s', hs', hy⟩)
      · exact Or.inl h
      · exact Or.inr ⟨s, Or.inl rfl, rfl, Or.inl ⟨t, ht, hk⟩⟩
      · exact Or.inr ⟨s, Or.inl rfl, rfl, Or.inr ⟨t, ht, hk⟩⟩
      · exact Or.inr ⟨s', Or.inr hs', hy⟩
    · rintro (h | ⟨s', (rfl | hs'), heq, (⟨t, ht, hk⟩ | ⟨t, ht, hk⟩)⟩)
      · exact Or.inl (Or.inl (Or.inl h))
      · exact Or.inl (Or.inl (Or.inr ⟨t, ⟨ht, hk⟩, heq.symm⟩))
      · exact Or.inl (Or.inr ⟨t, ⟨ht, hk⟩, heq.symm⟩)
      · exact Or.inr ⟨s', hs', heq, Or.inl ⟨t, ht, hk⟩⟩
      · exact Or.inr ⟨s', hs', heq, Or.inr ⟨t, ht, hk⟩⟩

theorem prefix_append_inj (p a b : String) : p ++ a = p ++ b ↔ a = b := by
  constructor
  · intro h
    have hd := congrArg String.data h
    simp only [String.data_append] at hd
    exact String.ext (List.append_cancel_left hd)
  · rintro rfl
    rfl

theorem dot_append_ne_hash_append (a b : String) : ("." ++ a : String) ≠ "#" ++ b := by
  intro h
  have hd := congrArg String.data h
  simp only [String.data_append] at hd
  simp at hd

theorem dot_append_eq_hash_append_iff (a b : String) :
    (("." ++ a : String) = "#" ++ b) ↔ False :=
  iff_false_intro (dot_append_ne_hash_append a b)

theorem hash_append_eq_dot_append_iff (a b : String) :
    (("#" ++ a : String) = "." ++ b) ↔ False := by
  refine iff_false_intro fun h => ?_
  have hd := congrArg String.data h
  simp only [String.data_append] at hd
  simp at hd

theorem grep_mem (S : Finset String) (srcs : List String) (x : String) :
    x ∈ (eliminate_selectors_from_idclass_grepping S srcs).1 ↔
      x ∈ S ∧ ¬ ∃ t ∈ selectorTokens x, ∃ c ∈ srcs, occursAsWord t c = true := by
  simp only [eliminate_selectors_from_idclass_grepping,
    extract_ids_and_classes_from_selectors, grepScan_eq, Finset.mem_sdiff,
    Finset.mem_union, Finset.mem_biUnion, List.mem_toFinset, mem_scan_fold,
    mem_extract_origins, mem_extract_ids, mem_extract_classes, Finset.mem_sort,
    Finset.not_mem_empty, false_or, List.not_mem_nil, or_false, false_and,
    selectorTokens, List.mem_append, prefix_append_inj, dot_append_eq_hash_append_iff,
    hash_append_eq_dot_append_iff, exists_false, and_false, exists_eq_right]
  constructor
  · rintro ⟨hx, hn⟩
    refine ⟨hx, ?_⟩
    rintro ⟨t, ht, hc⟩
    apply hn
    rcases ht with hid | hcls
    · exact Or.inl ⟨t, ⟨⟨x, hx, hid⟩, hc⟩, x, hx, rfl, hid⟩
    · exact Or.inr ⟨t, ⟨⟨x, hx, hcls⟩, hc⟩, x, hx, rfl, hcls⟩
  · rintro ⟨hx, hn⟩
    refine ⟨hx, ?_⟩
    rintro (⟨a, ⟨-, hc⟩, s, -, rfl, ha⟩ | ⟨a, ⟨-, hc⟩, s, -, rfl, ha⟩)
    · exact hn ⟨a, Or.inl ha, hc⟩
    · exact hn ⟨a, Or.inr ha, hc⟩

theorem dom_mem (S : Finset String) (docs : List Doc) (x : String) :
    x ∈ (eliminate_selectors_from_dom_matching S docs).1 ↔
      x ∈ S ∧ ∀ d ∈ docs, selectorMatches d x = false :=
  mem_dom_fold docs S x

/-- C1: Monotonicity of elimination: for every candidate selector set and every
input sequence, the remaining set returned by the DOM stage and by the grep
stage is a subset of the candidate set passed in; no stage ever adds a
selector to the unused set. -/
theorem C1_elimination_monotone (S : Finset String) (docs : List Doc)
    (srcs : List String) :
    (eliminate_selectors_from_dom_matching S docs).1 ⊆ S ∧
      (eliminate_selectors_from_idclass_grepping S srcs).1 ⊆ S := by
  constructor
  · intro x hx
    exact ((dom_mem S docs x).1 hx).1
  · intro x hx
    exact ((grep_mem S srcs x).1 hx).1

/-- C2: Soundness of the DOM stage: if a candidate selector matches at least
one node in at least one supplied document (the evaluator returns a non-empty
node list without raising), it is absent from the remaining set of the DOM
stage. -/
theorem C2_dom_stage_sound (S : Finset String) (docs : List Doc) (sel : String)
    (hS : sel ∈ S) (d : Doc) (hd : d ∈ docs) (n : Nat) (hn : d sel = some n)
    (hpos : 0 < n) :
    sel ∉ (eliminate_selectors_from_dom_matching S docs).1 := by
  intro hmem
  have h := ((dom_mem S docs sel).1 hmem).2 d hd
  simp only [selectorMatches, hn, decide_eq_false_iff_not] at h
  exact h hpos

/-- Witness for C2 at a concrete input. -/
theorem C2_dom_stage_sound_witness :
    "#a" ∉ (eliminate_selectors_from_dom_matching {"#a"} [fun _ => some 1]).1 :=
  C2_dom_stage_sound {"#a"} [fun _ => some 1] "#a" (by decide) (fun _ => some 1)
    (List.mem_singleton.mpr rfl) 1 rfl (by decide)

/-- C3: Exact characterization of the grep stage: a candidate selector is
removed if and only if some id or class identifier extracted from it occurs
as a whole word in some supplied source text (an OR across the selector's
identifiers; a selector with no identifiers, or whose identifiers occur
nowhere, remains in the unused set). -/
theorem C3_grep_stage_characterization (S : Finset String) (srcs : List String)
    (sel : String) (hS : sel ∈ S) :
    sel ∉ (eliminate_selectors_from_idclass_grepping S srcs).1 ↔
      ∃ t ∈ selectorTokens sel, ∃ c ∈ srcs, occursAsWord t c = true := by
  simp [grep_mem, hS]

/-- Witness for C3 at the compound-selector scenario of the specification. -/
theorem C3_grep_stage_characterization_witness :
    ("#nav .item" ∉
        (eliminate_selectors_from_idclass_grepping {"#nav .item"} ["only nav here"]).1 ↔
      ∃ t ∈ selectorTokens "#nav .item",
        ∃ c ∈ ["only nav here"], occursAsWord t c = true) :=
  C3_grep_stage_characterization {"#nav .item"} ["only nav here"] "#nav .item"
    (by decide)

/-- C5: Fail-open handling of evaluator errors: a selector whose evaluation
raises is excluded from that document's found set, and when evaluation raises
on every supplied document the selector stays in the DOM stage's remaining
set (it is never removed on account of the error). -/
theorem C5_evaluator_error_fail_open (S : Finset String) (docs : List Doc)
    (sel : String) (hS : sel ∈ S) (doc : Doc) (herr : doc sel = none) :
    sel ∉ get_matching_selectors_in_dom S doc ∧
      ((∀ d ∈ docs, d sel = none) →
        sel ∈ (eliminate_selectors_from_dom_matching S docs).1) := by
  constructor
  · intro hmem
    have h := (Finset.mem_filter.mp hmem).2
    simp only [selectorMatches, herr] at h
    exact Bool.noConfusion h
  · intro hall
    refine (dom_mem S docs sel).2 ⟨hS, ?_⟩
    intro d hd
    simp only [selectorMatches, hall d hd]

/-- Witness for C5 at a concrete input. -/
theorem C5_evaluator_error_fail_open_witness :
    "x" ∉ get_matching_selectors_in_dom {"x"} (fun _ => none) ∧
      ((∀ d ∈ [(fun _ => none : Doc)], d "x" = none) →
        "x" ∈ (eliminate_selectors_from_dom_matching {"x"} [fun _ => none]).1) :=
  C5_evaluator_error_fail_open {"x"} [fun _ => none] "x" (by decide)
    (fun _ => none) rfl

/-- C7: Stage-order commutativity: DOM elimination then grep elimination
yields the same final unused set as grep first and DOM second, the origin map
being rebuilt from whichever candidate set the grep stage receives. -/
theorem C7_stage_order_commutes (S : Finset String) (docs : List Doc)
    (srcs : List String) :
    (eliminate_selectors_from_idclass_grepping
        (eliminate_selectors_from_dom_matching S docs).1 srcs).1 =
      (eliminate_selectors_from_dom_matching
        (eliminate_selectors_from_idclass_grepping S srcs).1 docs).1 := by
  ext x
  rw [grep_mem, dom_mem, dom_mem, grep_mem]
  tauto

/-- C4: No-input stability: with zero HTML documents and zero other source
files both stages are skipped, no stage record is produced, and the final
unused_selectors list holds exactly the raw extracted selector set. -/
theorem C4_no_input_stability (S : Finset String) :
    (analyzeFile S [] []).dom_matching = none ∧
      (analyzeFile S [] []).idclass_elimination = none ∧
      (analyzeFile S [] []).unused_selectors.toFinset = S ∧
      ∀ x, x ∈ (analyzeFile S [] []).unused_selectors ↔ x ∈ S := by
  refine ⟨rfl, rfl, ?_, ?_⟩
  · simp [analyzeFile, pipelineUnused]
  · intro x
    simp [analyzeFile, pipelineUnused, Finset.mem_sort]

theorem PyHeap.read_write_ne (h : PyHeap) (r r' : Nat) (v : Finset String)
    (hne : r ≠ r') : (h.write r v).read r' = h.read r' := by
  simp [PyHeap.read, PyHeap.write, List.getD_eq_getElem?_getD, List.getElem?_set_ne hne]

theorem PyHeap.read_write_self (h : PyHeap) (r : Nat) (v : Finset String)
    (hr : r < h.cells.length) : (h.write r v).read r = v := by
  simp [PyHeap.read, PyHeap.write, List.getD_eq_getElem?_getD, List.getElem?_set_self, hr]

theorem PyHeap.length_write (h : PyHeap) (r : Nat) (v : Finset String) :
    (h.write r v).cells.length = h.cells.length := by
  simp [PyHeap.write]

theorem PyHeap.read_alloc_old (h : PyHeap) (v : Finset String) (r : Nat)
    (hr : r < h.cells.length) : (h.alloc v).1.read r = h.read r := by
  simp [PyHeap.read, PyHeap.alloc, List.getD_eq_getElem?_getD, List.getElem?_append_left hr]

theorem PyHeap.read_alloc_new (h : PyHeap) (v : Finset String) :
    (h.alloc v).1.read (h.alloc v).2 = v := by
  simp [PyHeap.read, PyHeap.alloc, List.getD_eq_getElem?_getD, List.getElem?_concat_length]

theorem dom_fold_stateful (docs : List Doc) (hh : PyHeap) (u s : Nat) (hne : u ≠ s)
    (hu : u < hh.cells.length) :
    (docs.foldl (fun hh d =>
        PyHeap.write hh u (hh.read u \ get_matching_selectors_in_dom (hh.read u) d))
      hh).read s = hh.read s ∧
    (docs.foldl (fun hh d =>
        PyHeap.write hh u (hh.read u \ get_matching_selectors_in_dom (hh.read u) d))
      hh).read u =
      docs.foldl (fun v d => v \ get_matching_selectors_in_dom v d) (hh.read u) := by
  induction docs generalizing hh with
  | nil => exact ⟨rfl, rfl⟩
  | cons d ds ih =>
    have hu2 : u < (hh.write u (hh.read u \ get_matching_selectors_in_dom (hh.read u) d)).cells.length := by
      rw [PyHeap.length_write]
      exact hu
    obtain ⟨h1, h2⟩ := ih (hh.write u (hh.read u \ get_matching_selectors_in_dom (hh.read u) d)) hu2
    rw [List.foldl_cons, List.foldl_cons]
    refine ⟨?_, ?_⟩
    · rw [h1, PyHeap.read_write_ne hh u s _ hne]
    · rw [h2, PyHeap.read_write_self hh u _ hu]

/-- C10: Sorted, deterministic reporting: each stage record and the final
per-file record store an ascending, duplicate-free list whose members are
exactly the corresponding remaining set, hence a deterministic function of
that set. -/
theorem C10_sorted_deterministic_reporting (S : Finset String) (docs : List Doc)
    (srcs : List String) :
    (List.Sorted (fun a b => a ≤ b)
        (eliminate_selectors_from_dom_matching S docs).2.unused_selectors ∧
      (eliminate_selectors_from_dom_matching S docs).2.unused_selectors.Nodup ∧
      ∀ x, x ∈ (eliminate_selectors_from_dom_matching S docs).2.unused_selectors ↔
        x ∈ (eliminate_selectors_from_dom_matching S docs).1) ∧
    (List.Sorted (fun a b => a ≤ b)
        (eliminate_selectors_from_idclass_grepping S srcs).2.unused_selectors ∧
      (eliminate_selectors_from_idclass_grepping S srcs).2.unused_selectors.Nodup ∧
      ∀ x, x ∈ (eliminate_selectors_from_idclass_grepping S srcs).2.unused_selectors ↔
        x ∈ (eliminate_selectors_from_idclass_grepping S srcs).1) ∧
    (List.Sorted (fun a b => a ≤ b) (analyzeFile S docs srcs).unused_selectors ∧
      (analyzeFile S docs srcs).unused_selectors.Nodup ∧
      ∀ x, x ∈ (analyzeFile S docs srcs).unused_selectors ↔
        x ∈ pipelineUnused S docs srcs) := by
  refine ⟨⟨?_, ?_, ?_⟩, ⟨?_, ?_, ?_⟩, ⟨?_, ?_, ?_⟩⟩ <;>
    first
      | exact Finset.sort_sorted _ _
      | exact Finset.sort_nodup _ _
      | (intro x
         exact Finset.mem_sort _)

/-- C9: The stages are non-mutating transforms on the object heap: the DOM
stage copies the candidate set into a fresh cell and mutates only that cell,
the grep stage builds its result as a fresh difference object; after either
call the caller's input cell is unchanged and the returned reference is a
fresh one holding the pure stage value. -/
theorem C9_stages_nonmutating (h : PyHeap) (selRef : Nat)
    (hlt : selRef < h.cells.length) (docs : List Doc) (srcs : List String) :
    ((dom_matching_stateful h selRef docs).1.read selRef = h.read selRef ∧
      (dom_matching_stateful h selRef docs).2 ≠ selRef ∧
      (dom_matching_stateful h selRef docs).1.read (dom_matching_stateful h selRef docs).2 =
        (eliminate_selectors_from_dom_matching (h.read selRef) docs).1) ∧
    ((idclass_grepping_stateful h selRef srcs).1.read selRef = h.read selRef ∧
      (idclass_grepping_stateful h selRef srcs).2 ≠ selRef ∧
      (idclass_grepping_stateful h selRef srcs).1.read
          (idclass_grepping_stateful h selRef srcs).2 =
        (eliminate_selectors_from_idclass_grepping (h.read selRef) srcs).1) := by
  have hne : h.cells.length ≠ selRef := by omega
  constructor
  · have halloc2 : (h.alloc (h.read selRef)).2 = h.cells.length := rfl
    have hu : (h.alloc (h.read selRef)).2 < (h.alloc (h.read selRef)).1.cells.length := by
      simp [PyHeap.alloc]
    obtain ⟨h1, h2⟩ := dom_fold_stateful docs (h.alloc (h.read selRef)).1
      (h.alloc (h.read selRef)).2 selRef (by rw [halloc2]; exact hne) hu
    refine ⟨?_, ?_, ?_⟩
    · exact h1.trans (PyHeap.read_alloc_old h (h.read selRef) selRef hlt)
    · exact hne
    · refine h2.trans ?_
      rw [PyHeap.read_alloc_new]
      rfl
  · refine ⟨?_, ?_, ?_⟩
    · exact PyHeap.read_alloc_old h _ selRef hlt
    · exact hne
    · exact PyHeap.read_alloc_new h _

/-- Witness for C9 at a concrete heap. -/
theorem C9_stages_nonmutating_witness :
    (((dom_matching_stateful ⟨[{"a"}]⟩ 0 [fun _ => some 1]).1.read 0 =
        (⟨[{"a"}]⟩ : PyHeap).read 0 ∧
      (dom_matching_stateful ⟨[{"a"}]⟩ 0 [fun _ => some 1]).2 ≠ 0 ∧
      (dom_matching_stateful ⟨[{"a"}]⟩ 0 [fun _ => some 1]).1.read
          (dom_matching_stateful ⟨[{"a"}]⟩ 0 [fun _ => some 1]).2 =
        (eliminate_selectors_from_dom_matching ((⟨[{"a"}]⟩ : PyHeap).read 0)
          [fun _ => some 1]).1) ∧
    ((idclass_grepping_stateful ⟨[{"a"}]⟩ 0 ["a"]).1.read 0 =
        (⟨[{"a"}]⟩ : PyHeap).read 0 ∧
      (idclass_grepping_stateful ⟨[{"a"}]⟩ 0 ["a"]).2 ≠ 0 ∧
      (idclass_grepping_stateful ⟨[{"a"}]⟩ 0 ["a"]).1.read
          (idclass_grepping_stateful ⟨[{"a"}]⟩ 0 ["a"]).2 =
        (eliminate_selectors_from_idclass_grepping ((⟨[{"a"}]⟩ : PyHeap).read 0)
          ["a"]).1)) :=
  C9_stages_nonmutating ⟨[{"a"}]⟩ 0 (by decide) [fun _ => some 1] ["a"]

/-- C6 counterexample: the per-CSS-file loop of main has no exception
handler, so with two CSS files whose first raises at selector extraction the
whole batch aborts with that error; the second file's analysis never appears
in any result, contradicting the claim that per-file errors only exclude the
one file while the others still complete. -/
theorem C6_per_file_error_aborts_batch_counterexample :
    mainLoop
        (fun f => if f == "bad.css" then Except.error "ParseError"
          else Except.ok {"a"})
        ["bad.css", "good.css"] [] [] = Except.error "ParseError" := rfl

/-- C6 amended: an error raised while extracting selectors of one CSS file
propagates out of the loop of main, so the batch ends with that error and
no per-file result at all is produced for the other files; an empty input
list, on the other hand, is not fatal and yields the empty result. -/
theorem C6_error_propagation_amended (extractFn : String → Except String (Finset String))
    (docs : List Doc) (srcs : List String) (f : String) (rest : List String)
    (e : String) (he : extractFn f = Except.error e) :
    mainLoop extractFn [] docs srcs = Except.ok [] ∧
      mainLoop extractFn (f :: rest) docs srcs = Except.error e := by
  refine ⟨rfl, ?_⟩
  simp [mainLoop, he]

/-- Witness for the amended C6 at a concrete input. -/
theorem C6_error_propagation_amended_witness :
    mainLoop
        (fun f => if f == "bad.css" then Except.error "ParseError"
          else Except.ok {"a"})
        [] [] [] = Except.ok [] ∧
      mainLoop
        (fun f => if f == "bad.css" then Except.error "ParseError"
          else Except.ok {"a"})
        ("bad.css" :: ["good.css"]) [] [] = Except.error "ParseError" :=
  C6_error_propagation_amended
    (fun f => if f == "bad.css" then Except.error "ParseError" else Except.ok {"a"})
    [] [] "bad.css" ["good.css"] "ParseError" rfl

theorem takeWhile_append_stop {α} (p : α → Bool) :
    ∀ l1 l2 : List α, (∀ c ∈ l1, p c = true) →
      (∀ c, l2.head? = some c → p c = false) → (l1 ++ l2).takeWhile p = l1
  | [], l2, _, h2 => by
    cases l2 with
    | nil => rfl
    | cons b l2 => simp [List.takeWhile_cons, h2 b rfl]
  | a :: l1, l2, h1, h2 => by
    rw [List.cons_append, List.takeWhile_cons, h1 a (List.mem_cons_self a l1)]
    simp [takeWhile_append_stop p l1 l2 (fun c hc => h1 c (List.mem_cons_of_mem a hc)) h2]

theorem takeWhile_append_marker {α} (p : α → Bool) (m : α) (hm : p m = false) :
    ∀ l1 l2 : List α, (l1 ++ m :: l2).takeWhile p = l1.takeWhile p
  | [], l2 => by simp [List.takeWhile_cons, hm]
  | a :: l1, l2 => by
    rw [List.cons_append, List.takeWhile_cons, List.takeWhile_cons]
    cases hpa : p a <;> simp [takeWhile_append_marker p m hm l1 l2]

theorem head_dropWhile_false {α} (p : α → Bool) :
    ∀ (l : List α) (c : α), (l.dropWhile p).head? = some c → p c = false
  | [], c, h => by simp at h
  | a :: l, c, h => by
    rw [List.dropWhile_cons] at h
    by_cases hpa : p a = true
    · rw [if_pos hpa] at h
      exact head_dropWhile_false p l c h
    · rw [if_neg hpa] at h
      rw [List.head?_cons] at h
      injection h with h
      rw [← h]
      cases hb : p a
      · rfl
      · exact absurd hb hpa

theorem drop_length_takeWhile {α} (p : α → Bool) :
    ∀ l : List α, l.drop (l.takeWhile p).length = l.dropWhile p
  | [] => rfl
  | a :: l => by
    rw [List.takeWhile_cons, List.dropWhile_cons]
    by_cases hpa : p a = true
    · rw [if_pos hpa, if_pos hpa]
      simpa using drop_length_takeWhile p l
    · rw [if_neg hpa, if_neg hpa]
      simp

theorem mem_findTokens_iff (m : Char) (hm : m.isAlphanum = false) (t : String)
    (cs : List Char) : t ∈ findTokens m cs ↔ specTokenIn m cs t := by
  induction cs using findTokens.induct m with
  | case1 =>
    simp only [findTokens, List.not_mem_nil, specTokenIn, false_iff]
    rintro ⟨pre, post, heq, -, -, -⟩
    exact absurd heq (by simp)
  | case2 c rest hcond ih =>
    obtain ⟨rfl, hrun⟩ := hcond
    rw [findTokens, if_pos ⟨rfl, hrun⟩, List.mem_cons]
    constructor
    · rintro (rfl | hrest)
      · refine ⟨[], rest.dropWhile Char.isAlphanum, ?_, hrun, ?_, ?_⟩
        · show c :: rest =
            [] ++ c :: (rest.takeWhile Char.isAlphanum ++ rest.dropWhile Char.isAlphanum)
          rw [List.nil_append, List.takeWhile_append_dropWhile]
        · exact fun ch hc => List.mem_takeWhile_imp hc
        · exact fun ch hc => head_dropWhile_false _ _ ch hc
      · obtain ⟨pre, post, heq, hne, hall, hpost⟩ := ih.mp hrest
        rw [drop_length_takeWhile] at heq
        have hx : rest = rest.takeWhile Char.isAlphanum ++ (pre ++ c :: (t.data ++ post)) := by
          rw [← heq, List.takeWhile_append_dropWhile]
        refine ⟨c :: rest.takeWhile Char.isAlphanum ++ pre, post, ?_, hne, hall, hpost⟩
        conv_lhs => rw [hx]
        simp [List.append_assoc]
    · rintro ⟨pre, post, heq, hne, hall, hpost⟩
      cases pre with
      | nil =>
        rw [List.nil_append] at heq
        injection heq with h1 h2
        left
        have htw : rest.takeWhile Char.isAlphanum = t.data := by
          rw [h2]
          exact takeWhile_append_stop _ _ _ hall hpost
        rw [htw]
      | cons p0 pre =>
        rw [List.cons_append] at heq
        injection heq with h1 h2
        right
        refine ih.mpr ?_
        refine ⟨pre.drop (rest.takeWhile Char.isAlphanum).length, post, ?_, hne, hall, hpost⟩
        rw [h2, takeWhile_append_marker _ c hm pre _,
          List.drop_append_of_le_length ((List.takeWhile_prefix _).length_le)]
  | case3 c rest hcond ih =>
    rw [findTokens, if_neg hcond, ih]
    constructor
    · rintro ⟨pre, post, heq, hne, hall, hpost⟩
      exact ⟨c :: pre, post, by rw [List.cons_append, heq], hne, hall, hpost⟩
    · rintro ⟨pre, post, heq, hne, hall, hpost⟩
      cases pre with
      | nil =>
        rw [List.nil_append] at heq
        injection heq with h1 h2
        exfalso
        apply hcond
        refine ⟨h1, ?_⟩
        cases hdata : t.data with
        | nil => exact absurd hdata hne
        | cons d ds =>
          have hd := hall d (by rw [hdata]; exact List.mem_cons_self d ds)
          rw [h2, hdata, List.cons_append, List.takeWhile_cons, hd]
          simp
      | cons p0 pre =>
        rw [List.cons_append] at heq
        injection heq with h1 h2
        exact ⟨pre, post, h2, hne, hall, hpost⟩

/-- C8: Identifier extraction contract: the ids and classes are exactly the
alphanumeric tokens directly following a hash or dot marker (maximal runs);
origins is keyed by the prefixed identifier, hash keys hold exactly the id
occurrences and dot keys exactly the class occurrences of selectors of the
input (so an id and a class of the same bare text never collide), and any
non-empty origins key carries one of the two prefixes. -/
theorem C8_identifier_extraction_contract (selectors : List String) :
    (∀ t, t ∈ (extract_ids_and_classes_from_selectors selectors).ids ↔
      ∃ sel ∈ selectors, specTokenIn '#' sel.data t) ∧
    (∀ t, t ∈ (extract_ids_and_classes_from_selectors selectors).classes ↔
      ∃ sel ∈ selectors, specTokenIn '.' sel.data t) ∧
    (∀ t sel, sel ∈ (extract_ids_and_classes_from_selectors selectors).origins ("#" ++ t) ↔
      sel ∈ selectors ∧ specTokenIn '#' sel.data t) ∧
    (∀ t sel, sel ∈ (extract_ids_and_classes_from_selectors selectors).origins ("." ++ t) ↔
      sel ∈ selectors ∧ specTokenIn '.' sel.data t) ∧
    (∀ t t' : String, ("#" ++ t : String) ≠ "." ++ t') ∧
    (∀ key, (extract_ids_and_classes_from_selectors selectors).origins key ≠ [] →
      ∃ t, key = "#" ++ t ∨ key = "." ++ t) := by
  have h1 : ('#' : Char).isAlphanum = false := by decide
  have h2 : ('.' : Char).isAlphanum = false := by decide
  refine ⟨?_, ?_, ?_, ?_, ?_, ?_⟩
  · intro t
    simp only [extract_ids_and_classes_from_selectors, mem_extract_ids,
      Finset.not_mem_empty, false_or, mem_findTokens_iff '#' h1]
  · intro t
    simp only [extract_ids_and_classes_from_selectors, mem_extract_classes,
      Finset.not_mem_empty, false_or, mem_findTokens_iff '.' h2]
  · intro t sel
    simp only [extract_ids_and_classes_from_selectors, mem_extract_origins,
      List.not_mem_nil, false_or, prefix_append_inj, dot_append_eq_hash_append_iff,
      exists_false, and_false, or_false, exists_eq_right,
      mem_findTokens_iff '#' h1]
    constructor
    · rintro ⟨s, hs, rfl, hp⟩
      exact ⟨hs, hp⟩
    · rintro ⟨hs, hp⟩
      exact ⟨sel, hs, rfl, hp⟩
  · intro t sel
    simp only [extract_ids_and_classes_from_selectors, mem_extract_origins,
      List.not_mem_nil, false_or, prefix_append_inj, hash_append_eq_dot_append_iff,
      exists_false, and_false, false_or, exists_eq_right,
      mem_findTokens_iff '.' h2]
    constructor
    · rintro ⟨s, hs, rfl, hp⟩
      exact ⟨hs, hp⟩
    · rintro ⟨hs, hp⟩
      exact ⟨sel, hs, rfl, hp⟩
  · intro t t' h
    exact (hash_append_eq_dot_append_iff t t').mp h
  · intro key hne
    obtain ⟨y, hy⟩ := List.exists_mem_of_ne_nil _ hne
    simp only [extract_ids_and_classes_from_selectors, mem_extract_origins,
      List.not_mem_nil, false_or] at hy
    obtain ⟨s, -, -, (⟨t, -, ht⟩ | ⟨t, -, ht⟩)⟩ := hy
    · exact ⟨t, Or.inl ht.symm⟩
    · exact ⟨t, Or.inr ht.symm⟩
